import Mathlib

/-!
Verification development for the dragonfly stylesheet engine
(`src/stylesheet.rs`, `src/layout.rs`, `src/dom.rs`).

Rust strings are modelled as `List Char` (a Rust `String` is well-formed
UTF-8, i.e. a sequence of unicode scalar values).  The source indexes
strings by *byte* offset (`s[pos..]`), so byte offsets are modelled
explicitly: `charAt s pos` returns the character starting at byte offset
`pos`, and `none` models the panic that Rust raises when `pos` is out of
range or not a character boundary.  Fallible/panicking code returns
`Option`; `none` always models a panic.
-/

namespace Dragonfly

/-- Shorthand turning a string literal into the `List Char` the model works on. -/
def str (s : String) : List Char := s.data

/-- Rust `char::is_whitespace`: the Unicode White_Space property.  This is a
finite set of code points, reproduced here exactly. -/
def rustIsWhitespace (c : Char) : Bool :=
  c.toNat = 0x09 ∨ c.toNat = 0x0A ∨ c.toNat = 0x0B ∨ c.toNat = 0x0C ∨ c.toNat = 0x0D ∨
  c.toNat = 0x20 ∨ c.toNat = 0x85 ∨ c.toNat = 0xA0 ∨ c.toNat = 0x1680 ∨
  (0x2000 ≤ c.toNat ∧ c.toNat ≤ 0x200A) ∨
  c.toNat = 0x2028 ∨ c.toNat = 0x2029 ∨ c.toNat = 0x202F ∨ c.toNat = 0x205F ∨
  c.toNat = 0x3000

/-- Number of bytes of the UTF-8 encoding of a character. -/
def utf8Size (c : Char) : Nat :=
  if c.toNat < 0x80 then 1
  else if c.toNat < 0x800 then 2
  else if c.toNat < 0x10000 then 3
  else 4

/-- Rust `str::len`: the length of a string in bytes. -/
def byteLen (s : List Char) : Nat := (s.map utf8Size).sum

/-- Rust `s[pos..].chars().next().unwrap()`: the character starting at byte
offset `pos`.  `none` models the panic raised when `pos` is past the end of
the string, or equal to its length (empty remainder, `unwrap` of `None`), or
not on a character boundary (the slice itself panics). -/
def charAt : List Char → Nat → Option Char
  | [], _ => none
  | c :: cs, pos =>
    if pos = 0 then some c
    else if pos < utf8Size c then none
    else charAt cs (pos - utf8Size c)

/-- Rust `&s[pos..]` as a string: the suffix starting at byte offset `pos`.
`none` models the panic raised when `pos` is not a character boundary or is
past the end (`pos = byteLen s` is fine and yields the empty suffix). -/
def byteDrop : List Char → Nat → Option (List Char)
  | s, 0 => some s
  | [], pos + 1 => if pos + 1 = 0 then some [] else none
  | c :: cs, pos + 1 =>
    if pos + 1 < utf8Size c then none
    else byteDrop cs (pos + 1 - utf8Size c)

/-!
### `remove_comments_and_extra_whitespace` (stylesheet.rs:161-178)

The Rust source runs `for i in 0..s.len()` over *byte* indices, with
`get_char(pos) = s[pos..].chars().next().unwrap()`.  Each iteration is
modelled by one step of `rcewGo`; the `fuel` argument is the number of
remaining loop iterations, always `byteLen s - i` at the call site, so the
model performs exactly the source's iterations.
-/

/-- One evaluation of `i > 0 && c.is_whitespace() && get_char(i - 1).is_whitespace()`
(the skip test at stylesheet.rs:173), with Rust's left-to-right short-circuit:
`get_char(i - 1)` is read (and can panic) only when the first two conjuncts hold.
Returns `some true` when the character is pushed, `some false` when skipped. -/
def wsPushCheck (s : List Char) (i : Nat) (c : Char) : Option Bool :=
  if 0 < i ∧ rustIsWhitespace c then
    match charAt s (i - 1) with
    | none => none
    | some p => some (!rustIsWhitespace p)
  else some true

/-- The `else if i > 2 && get_char(i - 2) == '*' && get_char(i - 1) == '/'`
branch (stylesheet.rs:169), short-circuit included: `get_char(i - 1)` is read
only when `get_char(i - 2) == '*'`. -/
def commentEndCheck (s : List Char) (i : Nat) (inComment : Bool) : Option Bool :=
  if 2 < i then
    match charAt s (i - 2) with
    | none => none
    | some a =>
      if a = '*' then
        match charAt s (i - 1) with
        | none => none
        | some b => some (if b = '/' then false else inComment)
      else some inComment
  else some inComment

/-- The full flag update of one loop iteration
(`if c == '/' && get_char(i + 1) == '*' {..} else if ..`, stylesheet.rs:167-171).
`get_char(i + 1)` is read (and can panic, e.g. when `'/'` is the last byte)
only when `c == '/'`. -/
def commentCheck (s : List Char) (i : Nat) (c : Char) (inComment : Bool) : Option Bool :=
  if c = '/' then
    match charAt s (i + 1) with
    | none => none
    | some c2 => if c2 = '*' then some true else commentEndCheck s i inComment
  else commentEndCheck s i inComment

/-- Iterations `i, i+1, ..., i+fuel-1` of the loop of
`remove_comments_and_extra_whitespace`, returning the characters pushed by
those iterations.  Invoked with `fuel = byteLen s - i` so that exactly the
source's iterations `i < byteLen s` run. -/
def rcewGo (s : List Char) : Nat → Nat → Bool → Option (List Char)
  | _, 0, _ => some []
  | i, fuel + 1, inComment =>
    match charAt s i with
    | none => none
    | some c =>
      match commentCheck s i c inComment with
      | none => none
      | some inC =>
        if inC then rcewGo s (i + 1) fuel inC
        else
          match wsPushCheck s i c with
          | none => none
          | some push =>
            if push then
              (rcewGo s (i + 1) fuel inC).map
                (fun rest => (if rustIsWhitespace c then ' ' else c) :: rest)
            else rcewGo s (i + 1) fuel inC

/-- `remove_comments_and_extra_whitespace` (stylesheet.rs:161-178).
`none` models a panic of the byte-indexed scan. -/
def removeCommentsAndExtraWhitespace (s : List Char) : Option (List Char) :=
  rcewGo s 0 (byteLen s) false

/-!
### Data model (stylesheet.rs:5-149, 396-481)
-/

/-- `enum Position` (stylesheet.rs:5-23). -/
inductive Position where
  | Static
  | Relative
  | Absolute
  | Fixed
  | Sticky
deriving DecidableEq, Repr

/-- The strum-derived `Position::from_str`: exact match against the
`#[strum(serialize = ..)]` keywords, `none` on anything else. -/
def Position.fromStr? (v : List Char) : Option Position :=
  if v = str "static" then some .Static
  else if v = str "relative" then some .Relative
  else if v = str "absolute" then some .Absolute
  else if v = str "fixed" then some .Fixed
  else if v = str "sticky" then some .Sticky
  else none

/-- `enum Display` (stylesheet.rs:78-101). -/
inductive Display where
  | Block
  | Inline
  | InlineBlock
  | Flex
  | InlineFlex
  | Grid
  | InlineGrid
  | FlowRoot
  | None
  | Contents
deriving DecidableEq, Repr

/-- The strum-derived `Display::from_str`. -/
def Display.fromStr? (v : List Char) : Option Display :=
  if v = str "block" then some .Block
  else if v = str "inline" then some .Inline
  else if v = str "inline-block" then some .InlineBlock
  else if v = str "flex" then some .Flex
  else if v = str "inline-flex" then some .InlineFlex
  else if v = str "grid" then some .Grid
  else if v = str "inline-grid" then some .InlineGrid
  else if v = str "flow-root" then some .FlowRoot
  else if v = str "none" then some .None
  else if v = str "contents" then some .Contents
  else none

/-- `enum FontFamily` (stylesheet.rs:25-76). -/
inductive FontFamily where
  | Serif
  | SansSerif
  | Monospace
  | Cursive
  | Fantasy
  | SystemUi
  | UiSerif
  | UiSansSerif
  | UiMonospace
  | UiRounded
  | Math
  | Emoji
  | Fangsong
  | Custom : List Char → FontFamily
deriving DecidableEq, Repr

/-- The strum-derived `FontFamily::from_str`.  The `Custom` variant carries a
field and has no serialize keyword, so `from_str` never produces it (the
caller builds `Custom` from the raw text on failure). -/
def FontFamily.fromStr? (v : List Char) : Option FontFamily :=
  if v = str "serif" then some .Serif
  else if v = str "sans-serif" then some .SansSerif
  else if v = str "monospace" then some .Monospace
  else if v = str "cursive" then some .Cursive
  else if v = str "fantasy" then some .Fantasy
  else if v = str "system-ui" then some .SystemUi
  else if v = str "ui-serif" then some .UiSerif
  else if v = str "ui-sans-serif" then some .UiSansSerif
  else if v = str "ui-monospace" then some .UiMonospace
  else if v = str "ui-rounded" then some .UiRounded
  else if v = str "math" then some .Math
  else if v = str "emoji" then some .Emoji
  else if v = str "fangsong" then some .Fangsong
  else none

/-- Modelled from the spec: the color-parsing capability is the external
`css_color` crate (`Srgb`), explicitly out of scope for the core ("consumed
as a parsing capability returning an RGB triple", spec §1; "given a CSS color
string ... returns a parsed RGB value or a failure", spec §6).  Channels are
rationals in `[0,1]` like the crate's unit-interval floats. -/
structure Srgb where
  red : ℚ
  green : ℚ
  blue : ℚ
  alpha : ℚ
deriving DecidableEq, Repr

/-- Modelled from the spec: `Srgb::from_str`, the delegated color-string
capability, given on the CSS named colors the claims exercise; every other
input is a failure ("a failure that the resolver treats as leave property
unset", spec §6). -/
def Srgb.fromStr? (v : List Char) : Option Srgb :=
  if v = str "red" then some ⟨1, 0, 0, 1⟩
  else if v = str "blue" then some ⟨0, 0, 1, 1⟩
  else if v = str "yellow" then some ⟨1, 1, 0, 1⟩
  else if v = str "black" then some ⟨0, 0, 0, 1⟩
  else if v = str "white" then some ⟨1, 1, 1, 1⟩
  else none

/-- `enum Unit` (stylesheet.rs:396-412).  The `f32` payloads are modelled as
rationals; every numeric value a claim touches is exactly representable, and
`f32` rounding of the unit conversions is not modelled. -/
inductive Unit where
  | Absolute : ℚ → Unit
  | RelativeToParentFontSize : ℚ → Unit
  | RelativeToParentFontHeight : ℚ → Unit
  | RelativeToGlyph0Width : ℚ → Unit
  | RelativeToRootFontSize : ℚ → Unit
  | RelativeToLineHeight : ℚ → Unit
deriving DecidableEq, Repr

/-- The numeric payload carried by a unit. -/
def Unit.payload : Unit → ℚ
  | .Absolute q => q
  | .RelativeToParentFontSize q => q
  | .RelativeToParentFontHeight q => q
  | .RelativeToGlyph0Width q => q
  | .RelativeToRootFontSize q => q
  | .RelativeToLineHeight q => q

/-- Whether a unit is the `Absolute` variant. -/
def Unit.isAbsolute : Unit → Bool
  | .Absolute _ => true
  | _ => false

/-- Rust `str::trim`: strip leading and trailing White_Space. -/
def trim (s : List Char) : List Char :=
  ((s.dropWhile rustIsWhitespace).reverse.dropWhile rustIsWhitespace).reverse

/-- Rust `char::is_alphabetic`, modelled on its ASCII fragment (`a-z`,
`A-Z`).  Non-ASCII alphabetic code points are not modelled; theorems that
quantify over unit strings restrict to ASCII input, where this is exact. -/
def rustIsAlphabetic (c : Char) : Bool := c.isAlpha

/-- The keyword match of `Unit::from_str` (stylesheet.rs:428-440) on the
already-normalized suffix. -/
def Unit.fromStrNorm (t : List Char) (num : ℚ) : Unit :=
  if t = str "px" then .Absolute num
  else if t = str "in" then .Absolute (num * 96)
  else if t = str "cm" then .Absolute (num * 96 / (254 / 100))
  else if t = str "mm" then .Absolute (num * 96 / (254 / 100) / 10)
  else if t = str "em" then .RelativeToParentFontSize num
  else if t = str "ex" then .RelativeToParentFontHeight num
  else .Absolute num

/-- `Unit::from_str` (stylesheet.rs:420-442): trim, lowercase (Rust
`to_lowercase`, exact on ASCII), keep only alphabetic/whitespace characters,
then match the unit keyword; unhandled suffixes fall back to `Absolute`. -/
def Unit.fromStr (s : List Char) (num : ℚ) : Unit :=
  Unit.fromStrNorm
    (((trim s).map Char.toLower).filter
      (fun c => rustIsAlphabetic c || rustIsWhitespace c)) num

/-- `struct Dimension` (stylesheet.rs:444-451). -/
structure Dimension where
  number : ℚ
  unit : Unit
deriving DecidableEq, Repr

/-- Rust `char::is_numeric`, modelled on its ASCII fragment (`0-9`).
Non-ASCII Unicode numeric code points are not modelled; theorems that
quantify over dimension strings restrict to ASCII input, where this is
exact. -/
def rustIsNumeric (c : Char) : Bool := c.isDigit

/-- Rust `number_str.parse::<f32>()` on a string of digits and dots (the only
shape `Dimension::parse_number` ever feeds it): it succeeds iff the string is
nonempty, has at most one dot, and has at least one digit.  The value is kept
as an exact rational (`f32` rounding is not modelled; claims only use exactly
representable values). -/
def f32Parse? (s : List Char) : Option ℚ :=
  if s ≠ [] ∧ s.all (fun c => c.isDigit || c = '.') ∧ s.count '.' ≤ 1 ∧ s.any Char.isDigit
  then
    let ip := s.takeWhile (fun c => c ≠ '.')
    let fp := (s.dropWhile (fun c => c ≠ '.')).drop 1
    let ipv : Nat := ip.foldl (fun a c => a * 10 + (c.toNat - 48)) 0
    let fpv : Nat := fp.foldl (fun a c => a * 10 + (c.toNat - 48)) 0
    if fp = [] then some (ipv : ℚ)
    else some ((ipv : ℚ) + (fpv : ℚ) / (10 : ℚ) ^ fp.length)
  else none

/-- `Dimension::parse_number` (stylesheet.rs:462-480): collect the numeric
and dot characters from anywhere in the string, try to parse them, and on
failure return `(0.0, 0)`.  The second component is `number_str.len()`, a
byte count. -/
def parseNumber (s : List Char) : ℚ × Nat :=
  let numberStr := s.filter (fun c => rustIsNumeric c || c = '.')
  match f32Parse? numberStr with
  | some num => (num, byteLen numberStr)
  | none => (0, 0)

/-- `Dimension::from_str` (stylesheet.rs:454-460): parse the number, then
parse the unit from the byte suffix `&s[number_len..]`.  `none` models the
panic when `number_len` is not a character boundary of `s`. -/
def Dimension.fromStr (s : List Char) : Option Dimension :=
  let n := parseNumber s
  (byteDrop s n.2).map fun suffix => ⟨n.1, Unit.fromStr suffix n.1⟩

/-- `struct Declaration` (stylesheet.rs:104-112).  The `margin:
[Option<Dimension>; 4]` array is a list that is always of length 4.  The
field defaults are the derived `Default` (stylesheet.rs:104). -/
structure Declaration where
  display : Display := .Block
  position : Position := .Static
  color : Option Srgb := none
  backgroundColor : Option Srgb := none
  fontFamily : Option FontFamily := none
  margin : List (Option Dimension) := [none, none, none, none]
deriving DecidableEq, Repr

/-- `Declaration::default()`. -/
def Declaration.mkDefault : Declaration := {}

/-- Rust `self.decl.margin[i] = v` on the fixed-size array
`[Option<Dimension>; 4]`: `none` models the index-out-of-bounds panic when
`4 ≤ i`. -/
def Declaration.setMargin (d : Declaration) (i : Nat) (v : Option Dimension) :
    Option Declaration :=
  if i < 4 then some {d with margin := d.margin.set i v} else none

/-- `struct GlobalStyle` (stylesheet.rs:130-134): selector, declarations. -/
structure GlobalStyle where
  rules : List (List Char × Declaration) := []
deriving DecidableEq, Repr

/-- `GlobalStyle::add_rule` (stylesheet.rs:137-140). -/
def GlobalStyle.addRule (g : GlobalStyle) (selector : List Char)
    (decl : Declaration) : GlobalStyle :=
  ⟨g.rules ++ [(selector, decl)]⟩

/-- `enum ParserMode` (stylesheet.rs:181-187). -/
inductive ParserMode where
  | Normal
  | DefaultCss
deriving DecidableEq, Repr

/-!
### String splitting helpers used by the resolver and inline entry point
-/

/-- Worker for `splitOnChar`, carrying the current piece reversed. -/
def splitOnCharGo (sep : Char) : List Char → List Char → List (List Char)
  | [], cur => [cur.reverse]
  | c :: cs, cur =>
    if c = sep then cur.reverse :: splitOnCharGo sep cs []
    else splitOnCharGo sep cs (c :: cur)

/-- Rust `str::split(sep)` for a character separator: keeps empty pieces,
always yields at least one piece. -/
def splitOnChar (sep : Char) (s : List Char) : List (List Char) :=
  splitOnCharGo sep s []

/-- Worker for `splitWhitespace`, carrying the current token reversed. -/
def splitWhitespaceGo : List Char → List Char → List (List Char)
  | [], cur => if cur = [] then [] else [cur.reverse]
  | c :: cs, cur =>
    if rustIsWhitespace c then
      if cur = [] then splitWhitespaceGo cs []
      else cur.reverse :: splitWhitespaceGo cs []
    else splitWhitespaceGo cs (c :: cur)

/-- Rust `str::split_whitespace`: split on runs of White_Space, no empty
tokens. -/
def splitWhitespace (s : List Char) : List (List Char) :=
  splitWhitespaceGo s []

/-!
### `CssParser` (stylesheet.rs:189-394)

The scan position is modelled as a *character* offset into the parser's
input.  In the source it is a byte offset, and the two coincide on ASCII
input; the parser's input is always the output of
`remove_comments_and_extra_whitespace` (built in `CssParser::new`), which
panics on every string containing a non-ASCII character (its byte loop hits
a non-boundary index), so whenever the parser runs at all its input is ASCII
and the character-offset model is exact.
-/

/-- `struct CssParser` (stylesheet.rs:190-201). -/
structure CssParser where
  input : List Char
  pos : Nat
  braceLevel : Nat
  declBraceLevel : Option Nat
  selector : Option (List Char)
  attrName : Option (List Char)
  decl : Declaration
  mode : ParserMode
  style : GlobalStyle
deriving DecidableEq, Repr

/-- `CssParser::new` (stylesheet.rs:204-218).  `none` models the panic of the
normalization pass. -/
def CssParser.new (css : List Char) (mode : ParserMode) : Option CssParser :=
  (removeCommentsAndExtraWhitespace css).map fun input =>
    { input := input
      pos := 0
      braceLevel := 0
      declBraceLevel := none
      selector := none
      attrName := none
      decl := Declaration.mkDefault
      mode := mode
      style := {} }

/-- `CssParser::eof` (stylesheet.rs:220-222). -/
def CssParser.eof (p : CssParser) : Bool := p.input.length ≤ p.pos

/-- `CssParser::consume_while` (stylesheet.rs:238-244): the consumed run and
the new scan position. -/
def consumeWhile (test : Char → Bool) (input : List Char) (pos : Nat) :
    List Char × Nat :=
  let run := (input.drop pos).takeWhile test
  (run, pos + run.length)

/-- The character class of `CssParser::consume_name` (stylesheet.rs:246-251):
ASCII letters, digits, `-`, `_`. -/
def isNameChar (c : Char) : Bool :=
  ('a' ≤ c ∧ c ≤ 'z') ∨ ('A' ≤ c ∧ c ≤ 'Z') ∨ ('0' ≤ c ∧ c ≤ '9') ∨ c = '-' ∨ c = '_'

/-- `CssParser::replace_browser_keyword` (stylesheet.rs:253-269). -/
def replaceBrowserKeyword (value : List Char) : List Char :=
  if value = str "DfTextColor" then str "black"
  else if value = str "DfPageBackgroundColor" then str "white"
  else if value = str "DfButtonBorderColor" then str "gray"
  else if value = str "DfInputPlaceholderTextColor" then str "gray"
  else if value = str "DfButtonBackgroundColor" then str "lightgray"
  else if value = str "DfButtonTextColor" then str "black"
  else if value = str "DfLinkColor" then str "lightblue"
  else if value = str "DfVisitedColor" then str "purple"
  else if value = str "DfActiveColor" then str "blue"
  else if value = str "DfMarkBackgroundColor" then str "lightgray"
  else if value = str "DfMarkTextColor" then str "yellow"
  else if value = str "DfFieldsetBorderColor" then str "black"
  else value

/-- The `"margin"` arm of `parse_attr_value` (stylesheet.rs:292-297):
`for (i, s) in value.split_whitespace().enumerate() { self.decl.margin[i] = ... }`.
`none` models a panic: the array index when a fifth token appears, or a
panic inside `Dimension::from_str`. -/
def marginArm (d : Declaration) (value : List Char) : Option Declaration :=
  (splitWhitespace value).enum.foldlM
    (fun acc is =>
      (Dimension.fromStr is.2).bind fun dim => acc.setMargin is.1 (some dim))
    d

/-- `CssParser::parse_attr_value` (stylesheet.rs:271-308): dispatch on the
pending property name, mutating the in-progress declaration.  `none` models
a panic (`attr_name` unwrap, or the margin arm). -/
def CssParser.parseAttrValue (p : CssParser) (value : List Char) :
    Option CssParser :=
  match p.attrName with
  | none => none
  | some attrName =>
    let value := match p.mode with
      | .DefaultCss => replaceBrowserKeyword value
      | _ => value
    if attrName = str "display" then
      some {p with decl.display := (Display.fromStr? value).getD .Block}
    else if attrName = str "position" then
      some {p with decl.position := (Position.fromStr? value).getD .Static}
    else if attrName = str "color" then
      some {p with decl.color := Srgb.fromStr? value}
    else if attrName = str "background-color" then
      some {p with decl.backgroundColor := Srgb.fromStr? value}
    else if attrName = str "font-family" then
      some {p with decl.fontFamily := some ((FontFamily.fromStr? value).getD (.Custom value))}
    else if attrName = str "margin" then
      (marginArm p.decl value).map fun d => {p with decl := d}
    else if attrName = str "margin-top" then
      (Dimension.fromStr value).bind fun dim =>
        (p.decl.setMargin 0 (some dim)).map fun d => {p with decl := d}
    else if attrName = str "margin-right" then
      (Dimension.fromStr value).bind fun dim =>
        (p.decl.setMargin 1 (some dim)).map fun d => {p with decl := d}
    else if attrName = str "margin-bottom" then
      (Dimension.fromStr value).bind fun dim =>
        (p.decl.setMargin 2 (some dim)).map fun d => {p with decl := d}
    else if attrName = str "margin-left" then
      (Dimension.fromStr value).bind fun dim =>
        (p.decl.setMargin 3 (some dim)).map fun d => {p with decl := d}
    else
      some p

/-- `CssParser::advance` (stylesheet.rs:310-366), one scan step.  `none`
models a panic (the `peek` unwrap past the end, the `selector` unwrap, or a
panic inside `parse_attr_value`); `braceLevel`'s decrement is `Nat`
subtraction, which saturates at zero exactly like `saturating_sub`. -/
def CssParser.advance (p : CssParser) : Option CssParser :=
  match p.input.get? p.pos with
  | none => none
  | some c =>
    if c = '{' then
      some {p with pos := p.pos + 1, braceLevel := p.braceLevel + 1}
    else if c = '}' then
      let q := {p with pos := p.pos + 1, braceLevel := p.braceLevel - 1}
      match q.declBraceLevel with
      | some dbl =>
        if dbl = q.braceLevel then
          match q.selector with
          | none => none
          | some sel =>
            some {q with style := q.style.addRule sel q.decl,
                         declBraceLevel := none, selector := none}
        else some q
      | none => some q
    else if c = ' ' then
      some {p with pos := p.pos + 1}
    else if p.braceLevel = 0 then
      let nm := consumeWhile isNameChar p.input p.pos
      if nm.1 = [] then some {p with pos := p.pos + 1}
      else some {p with pos := nm.2, selector := some nm.1,
                        declBraceLevel := some p.braceLevel}
    else
      let nm := consumeWhile (fun c => c ≠ ';' ∧ c ≠ ':') p.input p.pos
      if nm.1 = [] then some {p with pos := p.pos + 1}
      else if p.braceLevel = 1 ∧ p.attrName = none then
        some {p with pos := nm.2, attrName := some nm.1}
      else if p.braceLevel = 1 then
        (CssParser.parseAttrValue {p with pos := nm.2} nm.1).map
          fun (q : CssParser) => {q with attrName := none}
      else
        some {p with pos := nm.2}

/-- `CssParser::parse` (stylesheet.rs:368-374): run `advance` until `eof`.
`fuel` bounds the number of steps; every step consumes at least one
character, so `input.length - pos` steps always suffice, and exhausted fuel
before `eof` yields `none` (never reached from `CssParser.run`'s call
sites in this file's theorems). -/
def CssParser.runFuel : Nat → CssParser → Option GlobalStyle
  | 0, p => if p.eof then some p.style else none
  | fuel + 1, p =>
    if p.eof then some p.style
    else p.advance.bind (CssParser.runFuel fuel)

/-- `CssParser::parse` on a freshly built parser. -/
def CssParser.run (p : CssParser) : Option GlobalStyle :=
  CssParser.runFuel p.input.length p

/-- `GlobalStyle::from_css` (stylesheet.rs:142-144).  `none` models a panic
anywhere in normalization or parsing. -/
def GlobalStyle.fromCss (css : List Char) (mode : ParserMode) :
    Option GlobalStyle :=
  (CssParser.new css mode).bind CssParser.run

/-- `CssParser::parse_inline` (stylesheet.rs:376-393): split the inline text
on `;`, split each piece at its first `:` into a trimmed key and value, skip
pieces whose key and value are both empty, and feed the rest to
`parse_attr_value`.  `none` models a panic.  (`CssParser::new("", mode)`
normalizes the empty string, which cannot panic.) -/
def CssParser.parseInline (inline : List Char) : Option Declaration :=
  match CssParser.new [] .Normal with
  | none => none
  | some p0 =>
    ((splitOnChar ';' inline).foldlM
      (fun p attr =>
        let parts := splitOnChar ':' attr
        let key := trim ((parts.get? 0).getD [])
        let value := trim ((parts.get? 1).getD [])
        if key = [] ∧ value = [] then some p
        else {p with attrName := some key}.parseAttrValue value)
      p0).map CssParser.decl

/-- `Declaration::from_inline` (stylesheet.rs:124-127). -/
def Declaration.fromInline (inline : List Char) : Option Declaration :=
  CssParser.parseInline inline

/-!
### DOM nodes and the layout tree builder (dom.rs, layout.rs)
-/

/-- One loop iteration count of `DOMNode::set_text` (dom.rs:51-63): the same
byte-indexed whitespace-collapsing scan as the normalization pass, without
the comment tracking.  `fuel` is the number of remaining iterations, always
`byteLen t - i`. -/
def setTextGo (t : List Char) : Nat → Nat → Option (List Char)
  | _, 0 => some []
  | i, fuel + 1 =>
    match charAt t i with
    | none => none
    | some c =>
      match wsPushCheck t i c with
      | none => none
      | some push =>
        if push then
          (setTextGo t (i + 1) fuel).map
            (fun rest => (if rustIsWhitespace c then ' ' else c) :: rest)
        else setTextGo t (i + 1) fuel

/-- `DOMNode::set_text` (dom.rs:51-63).  `none` models a panic of the
byte-indexed scan. -/
def setText (t : List Char) : Option (List Char) :=
  setTextGo t 0 (byteLen t)

/-- `struct DOMNode` (dom.rs:4-14).  `pos: Pos2` is a pair of coordinates
(always the default `(0, 0)`: the builder never assigns another position);
the `attrs` HashMap is an association list with key-overwriting insert. -/
structure DOMNode where
  posX : ℚ := 0
  posY : ℚ := 0
  name : List Char := []
  attrs : List (List Char × List Char) := []
  id : List Char := []
  style : Option Declaration := none
  text : List Char := []
deriving DecidableEq, Repr

/-- `DOMNode::default()` (dom.rs:16-27). -/
def DOMNode.mkDefault : DOMNode := {}

/-- `DOMNode::new` (dom.rs:31-40). -/
def DOMNode.new (name : List Char) : DOMNode := {name := name}

/-- `DOMNode::text_node` (dom.rs:42-46).  `none` models a panic inside
`set_text`. -/
def DOMNode.textNode (t : List Char) : Option DOMNode :=
  (setText t).map fun txt => {DOMNode.mkDefault with text := txt}

/-- `DOMNode::root` (dom.rs:66-70): the default node renamed `"html"`. -/
def DOMNode.root : DOMNode := {DOMNode.mkDefault with name := str "html"}

/-- `HashMap::insert` on the attribute map, as an association list update:
overwrite the value under an existing key, otherwise add the pair. -/
def insertAttr : List (List Char × List Char) → List Char → List Char →
    List (List Char × List Char)
  | [], k, v => [(k, v)]
  | kv :: rest, k, v =>
    if kv.1 = k then (k, v) :: rest else kv :: insertAttr rest k v

/-- The externally parsed document tree the builder walks (spec §6:
"a tree of element/text nodes exposing tag name, attribute list, and
children").  `other` stands for scraper's non-element, non-text nodes
(Document, Comment, Doctype, ...), which `compute_node` skips over while
still recursing into their children; scraper text nodes have no children. -/
inductive HtmlNode where
  | element : List Char → List (List Char × List Char) → List HtmlNode → HtmlNode
  | text : List Char → HtmlNode
  | other : List HtmlNode → HtmlNode

/-- `struct Layout` (layout.rs:6-12).  The indextree arena is a list of
`(node, parent)` entries indexed by position; the root node is entry 0 with
no parent, matching `Layout::default` (layout.rs:14-24). -/
structure Layout where
  arena : List (DOMNode × Option Nat)
  style : GlobalStyle
deriving DecidableEq, Repr

/-- Modelled from the spec: `Layout::default` parses the packaged
`internal/default.css` (not present under src/) through
`GlobalStyle::default_css`; the resulting GlobalStyle is taken as a
parameter (spec §6: "a packaged CSS resource parsed once at startup").
The arena starts with the root `html` node, per layout.rs:14-24. -/
def Layout.mkDefault (defaultStyle : GlobalStyle) : Layout :=
  { arena := [(DOMNode.root, none)], style := defaultStyle }

/-- `Layout::add_node` (layout.rs:92-121): a node named `"html"` overwrites
the root node in place (entry 0, keeping its absent parent link) and the
root id is returned; any other node is appended as a child of `parent`.
The subsequent `node.bounds(fonts)` call takes `&self`, only computes and
logs text metrics, and has no observable effect on the tree, so it is not
modelled (the text-metrics capability is out of scope per spec §1/§6). -/
def Layout.addNode (l : Layout) (node : DOMNode) (parent : Nat) : Nat × Layout :=
  if node.name = str "html" then
    (0, {l with arena := l.arena.set 0 (node, none)})
  else
    (l.arena.length, {l with arena := l.arena ++ [(node, some parent)]})

/-- `Layout::handle_element` (layout.rs:70-90): build the node, fold the
source attributes into its map, and parse the `style` attribute through
`Declaration::from_inline`.  `none` models a panic inside inline parsing. -/
def handleElementNode (name : List Char)
    (attrs : List (List Char × List Char)) : Option DOMNode :=
  attrs.foldlM
    (fun (node : DOMNode) kv =>
      let node := {node with attrs := insertAttr node.attrs kv.1 kv.2}
      if kv.1 = str "style" then
        (Declaration.fromInline kv.2).map fun d => {node with style := some d}
      else some node)
    (DOMNode.new name)

/-- The recursion of `compute_node` over a child list: each child is
processed in order against the same parent id, threading the layout. -/
def runChildren (f : HtmlNode → Nat → Layout → Option Layout) :
    List HtmlNode → Nat → Layout → Option Layout
  | [], _, l => some l
  | c :: cs, parent, l => (f c parent l).bind (runChildren f cs parent)

/-- `Layout::compute_node` (layout.rs:38-68): an element goes through
`handle_element`/`add_node` and becomes the parent of its children; a text
node is appended to the current parent; any other node is skipped and its
children attach to the current parent.  `fuel` bounds the recursion depth
(the source recursion is unbounded; any fuel at least the tree height gives
the source behaviour, and the theorems quantify over all fuels).  `none`
models a panic or exhausted fuel. -/
def computeNodeFuel : Nat → HtmlNode → Nat → Layout → Option Layout
  | 0, _, _, _ => none
  | fuel + 1, .element name attrs children, parent, l =>
    (handleElementNode name attrs).bind fun node =>
      let r := l.addNode node parent
      runChildren (computeNodeFuel fuel) children r.1 r.2
  | _ + 1, .text t, parent, l =>
    (DOMNode.textNode t).map fun node =>
      {l with arena := l.arena ++ [(node, some parent)]}
  | fuel + 1, .other children, parent, l =>
    runChildren (computeNodeFuel fuel) children parent l

/-- `Layout::compute` (layout.rs:27-36): start from the default layout and
process the document's root node (scraper's Document node) against the root
id 0. -/
def Layout.compute (fuel : Nat) (doc : HtmlNode) (defaultStyle : GlobalStyle) :
    Option Layout :=
  computeNodeFuel fuel doc 0 (Layout.mkDefault defaultStyle)

/-- The number of arena nodes named `"html"`. -/
def Layout.countHtml (l : Layout) : Nat :=
  (l.arena.filter (fun e => e.1.name = str "html")).length

/-- A document subtree containing no element named `"html"`. -/
inductive NoHtml : HtmlNode → Prop where
  | element : ∀ n a cs, n ≠ str "html" → (∀ c ∈ cs, NoHtml c) →
      NoHtml (.element n a cs)
  | text : ∀ t, NoHtml (.text t)
  | other : ∀ cs, (∀ c ∈ cs, NoHtml c) → NoHtml (.other cs)

/-- The claim's document shape: the parsed document's root node holds, among
non-`html` siblings, a single element named `"html"` (the root element), and
no further `html` element occurs anywhere below. -/
inductive SingleHtmlRoot : HtmlNode → Prop where
  | mk : ∀ attrs kids pre post,
      (∀ c ∈ pre, NoHtml c) → (∀ c ∈ post, NoHtml c) → (∀ c ∈ kids, NoHtml c) →
      SingleHtmlRoot (.other (pre ++ .element (str "html") attrs kids :: post))

/-!
### Reference artifacts for the proofs

`collapseGo` is the comment-free fragment of the normalization loop (pure
whitespace collapsing), used to characterize the scan on ASCII, slash-free
input; `normedFrom` recognizes its fixed points.  `prevWs`, `arenaGood`,
`sampleDoc` and `pW` are statement ingredients.
-/

/-- Pure whitespace collapsing: the `remove_comments_and_extra_whitespace`
loop restricted to input where the comment flag never fires.  `pw` records
whether the previous original character was whitespace (false at the start,
mirroring the `i > 0` guard). -/
def collapseGo : Bool → List Char → List Char
  | _, [] => []
  | pw, c :: cs =>
    if pw && rustIsWhitespace c then collapseGo (rustIsWhitespace c) cs
    else (if rustIsWhitespace c then ' ' else c) ::
      collapseGo (rustIsWhitespace c) cs

/-- Fixed-point recognizer for `collapseGo`: no whitespace character follows
a whitespace predecessor, and every whitespace character is the space
character. -/
def normedFrom : Bool → List Char → Bool
  | _, [] => true
  | pw, c :: cs =>
    (!(pw && rustIsWhitespace c)) &&
    ((!rustIsWhitespace c) || c = ' ') &&
    normedFrom (rustIsWhitespace c) cs

/-- Whether the character before position `i` exists and is whitespace. -/
def prevWs (s : List Char) (i : Nat) : Bool :=
  decide (0 < i) && (((s.get? (i - 1)).map rustIsWhitespace).getD false)

/-- The layout-arena invariant behind C9: the arena is nonempty, its entry 0
(the root) is named `"html"`, and no other entry is. -/
def arenaGood : List (DOMNode × Option Nat) → Prop
  | [] => False
  | hd :: tl => hd.1.name = str "html" ∧ ∀ e ∈ tl, e.1.name ≠ str "html"

/-- A concrete parsed document with the single root element `"html"`. -/
def sampleDoc : HtmlNode :=
  .other [.element (str "html") [] [.text (str "hi")]]

/-- A parser state at brace depth 0 looking at the name character `'p'`. -/
def pW : CssParser :=
  { input := str "p", pos := 0, braceLevel := 0, declBraceLevel := none,
    selector := none, attrName := none, decl := Declaration.mkDefault,
    mode := .Normal, style := {} }

/-!
### Theorems for the claims
-/

/-- C1: the claim says stylesheet parsing returns normally on every input,
malformed, partial, or non-ASCII alike.  The code disagrees: the
normalization scan of `GlobalStyle::from_css` indexes by byte offset, so it
panics on `"/"` (the comment-opener test reads `get_char(i + 1)` past the
end) and on any non-ASCII input such as `"é"` (the slice `s[i..]` hits a
non-character-boundary byte index).  This theorem evaluates the model at
both failing inputs: `none` is the panic. -/
theorem c1_from_css_panics_on_slash_and_non_ascii :
    GlobalStyle.fromCss (str "/") .Normal = none ∧
    GlobalStyle.fromCss (str "é") .Normal = none ∧
    removeCommentsAndExtraWhitespace (str "/") = none ∧
    removeCommentsAndExtraWhitespace (str "é") = none := by
  refine ⟨rfl, by decide, rfl, by decide⟩

/-- C2: stylesheet-mode parsing of
`"p { color: red; } div { display: flex; }"` returns normally with exactly
the two rules with selectors `"p"` then `"div"`, and parsing
`"p { color: red; } }"` (one excess closing brace) returns normally with
exactly the one `"p"` rule — the brace-depth counter saturates at zero. -/
theorem c2_rule_extraction_and_brace_saturation :
    (GlobalStyle.fromCss (str "p { color: red; } div { display: flex; }")
        .Normal).map (fun g => g.rules.map Prod.fst) =
      some [str "p", str "div"] ∧
    (GlobalStyle.fromCss (str "p { color: red; } \x7d") .Normal).map
        (fun g => g.rules.map Prod.fst) =
      some [str "p"] := by
  constructor <;> decide

/-- C3: the claim says the margin resolver assigns up to four
whitespace-separated Dimensions and that extra tokens beyond four never
fail.  The code disagrees: `self.decl.margin[i] = ...` indexes the
`[Option<Dimension>; 4]` array with the unbounded enumeration index, so a
fifth token panics (index out of bounds) — the first conjunct evaluates the
model at that failing input.  The four-token part of the claim is correct:
`"margin: 1px 2px 3px 4px;"` yields `Absolute` margins 1, 2, 3, 4 in
top/right/bottom/left order. -/
theorem c3_margin_fifth_token_panics_but_four_work :
    CssParser.parseInline (str "margin: 1px 2px 3px 4px 5px;") = none ∧
    (CssParser.parseInline (str "margin: 1px 2px 3px 4px;")).map
        Declaration.margin =
      some [some ⟨1, .Absolute 1⟩, some ⟨2, .Absolute 2⟩,
            some ⟨3, .Absolute 3⟩, some ⟨4, .Absolute 4⟩] := by
  constructor <;> decide

/-- C4, counterexample: the claim says a property set inside one rule's
block never appears in a later rule's committed Declaration, and in
particular that the second rule of
`"p { color: red; } div { display: flex; }"` has `color = None`.  The code
only resets `selector` and `decl_brace_level` on commit — `self.decl` is
reused — so the second rule's Declaration still carries `color = Some(red)`. -/
theorem c4_color_leaks_into_second_rule :
    (GlobalStyle.fromCss (str "p { color: red; } div { display: flex; }")
        .Normal).bind (fun g => (g.rules.get? 1).map (fun r => r.2.color)) =
      some (some ⟨1, 0, 0, 1⟩) := by
  decide

/-- C4, amended: on commit only the selector and the declaration-open brace
marker reset; the accumulated Declaration persists, so properties leak into
later rules.  Parsing `"p { color: red; } div { display: flex; }"` yields
`color = Some(red)` on the first rule and both `color = Some(red)` and
`display = Flex` on the second. -/
theorem c4_amended_decl_state_persists_across_rules :
    GlobalStyle.fromCss (str "p { color: red; } div { display: flex; }")
        .Normal =
      some ⟨[(str "p", {Declaration.mkDefault with color := some ⟨1, 0, 0, 1⟩}),
             (str "div", {Declaration.mkDefault with
                            color := some ⟨1, 0, 0, 1⟩,
                            display := .Flex})]⟩ := by
  decide

theorem ascii_utf8Size {c : Char} (h : c.toNat < 128) : utf8Size c = 1 := by
  unfold utf8Size
  rw [if_pos h]

theorem byteLen_nil : byteLen [] = 0 := rfl

theorem byteLen_cons (c : Char) (cs : List Char) :
    byteLen (c :: cs) = utf8Size c + byteLen cs := by
  simp [byteLen]

theorem ascii_byteLen (s : List Char) (h : ∀ c ∈ s, c.toNat < 128) :
    byteLen s = s.length := by
  induction s with
  | nil => rfl
  | cons c cs ih =>
    rw [byteLen_cons, ascii_utf8Size (h c (List.mem_cons_self c cs)),
      ih (fun x hx => h x (List.mem_cons_of_mem c hx)), List.length_cons]
    omega

theorem ascii_charAt (s : List Char) (h : ∀ c ∈ s, c.toNat < 128) :
    ∀ i, charAt s i = s.get? i := by
  induction s with
  | nil => intro i; cases i <;> rfl
  | cons c cs ih =>
    intro i
    cases i with
    | zero => rfl
    | succ n =>
      have hsz := ascii_utf8Size (h c (List.mem_cons_self c cs))
      have ht : charAt (c :: cs) (n + 1) = charAt cs n := by
        simp [charAt, hsz]
      rw [ht, List.get?_cons_succ,
        ih (fun x hx => h x (List.mem_cons_of_mem c hx)) n]

theorem allCharAt_ascii :
    ∀ (s : List Char), (∀ j, j < byteLen s → charAt s j ≠ none) →
      ∀ c ∈ s, c.toNat < 128 := by
  intro s
  induction s with
  | nil => intro _ c hc; cases hc
  | cons c cs ih =>
    intro h x hx
    have hc : c.toNat < 128 := by
      by_contra hge
      have h2 : 2 ≤ utf8Size c := by
        unfold utf8Size
        rw [if_neg (by omega)]
        split_ifs <;> omega
      have hlt : 1 < byteLen (c :: cs) := by
        rw [byteLen_cons]
        omega
      refine h 1 hlt ?_
      simp [charAt, h2]
      omega
    rcases List.mem_cons.1 hx with rfl | hx2
    · exact hc
    · refine ih (fun j hj hnone => ?_) x hx2
      have hsz := ascii_utf8Size hc
      refine h (j + 1) (by rw [byteLen_cons]; omega) ?_
      have ht : charAt (c :: cs) (j + 1) = charAt cs j := by
        simp [charAt, hsz]
      rw [ht, hnone]

theorem rcewGo_success_charAt (s : List Char) :
    ∀ (fuel i : Nat) (inC : Bool) (r : List Char),
      rcewGo s i fuel inC = some r →
      ∀ j, i ≤ j → j < i + fuel → charAt s j ≠ none := by
  intro fuel
  induction fuel with
  | zero => intro i inC r _ j h1 h2; omega
  | succ fuel ih =>
    intro i inC r h j h1 h2
    unfold rcewGo at h
    cases hca : charAt s i with
    | none => rw [hca] at h; cases h
    | some c =>
      rw [hca] at h
      dsimp only at h
      by_cases hij : j = i
      · rw [hij, hca]; exact fun e => Option.noConfusion e
      · have hj1 : i + 1 ≤ j := by omega
        have hj2 : j < (i + 1) + fuel := by omega
        cases hcc : commentCheck s i c inC with
        | none => rw [hcc] at h; cases h
        | some inC2 =>
          rw [hcc] at h
          dsimp only at h
          by_cases hin : inC2 = true
          · rw [hin, if_pos rfl] at h
            exact ih (i + 1) true r h j hj1 hj2
          · rw [if_neg hin] at h
            cases hw : wsPushCheck s i c with
            | none => rw [hw] at h; cases h
            | some push =>
              rw [hw] at h
              dsimp only at h
              by_cases hpu : push = true
              · rw [hpu, if_pos rfl] at h
                rcases Option.map_eq_some'.1 h with ⟨r2, hr2, _⟩
                exact ih (i + 1) inC2 r2 hr2 j hj1 hj2
              · rw [if_neg hpu] at h
                exact ih (i + 1) inC2 r h j hj1 hj2

theorem commentCheck_no_slash (s : List Char)
    (hA : ∀ c ∈ s, c.toNat < 128) (hs : ('/' : Char) ∉ s) (i : Nat) (c : Char)
    (hci : s.get? i = some c) :
    commentCheck s i c false = some false := by
  have hlt : i < s.length := by
    by_contra hge
    rw [List.get?_eq_none.2 (le_of_not_lt hge)] at hci
    cases hci
  have hcmem : c ∈ s := List.get?_mem hci
  have hc : ¬(c = '/') := fun e => hs (e ▸ hcmem)
  unfold commentCheck
  rw [if_neg hc]
  unfold commentEndCheck
  by_cases h2 : 2 < i
  · rw [if_pos h2]
    cases hga : s.get? (i - 2) with
    | none => exact absurd (List.get?_eq_none.1 hga) (by omega)
    | some a =>
      rw [ascii_charAt s hA (i - 2), hga]
      dsimp only
      by_cases ha : a = '*'
      · rw [if_pos ha]
        cases hgb : s.get? (i - 1) with
        | none => exact absurd (List.get?_eq_none.1 hgb) (by omega)
        | some b =>
          rw [ascii_charAt s hA (i - 1), hgb]
          have hb : ¬(b = '/') := fun e => hs (e ▸ List.get?_mem hgb)
          simp [hb]
      · rw [if_neg ha]
  · rw [if_neg h2]

theorem collapseGo_cons (pw : Bool) (c : Char) (cs : List Char) :
    collapseGo pw (c :: cs) =
      if pw && rustIsWhitespace c then collapseGo (rustIsWhitespace c) cs
      else (if rustIsWhitespace c then ' ' else c) ::
        collapseGo (rustIsWhitespace c) cs := rfl

theorem rcewGo_eq_collapseGo (s : List Char)
    (hA : ∀ c ∈ s, c.toNat < 128) (hs : ('/' : Char) ∉ s) :
    ∀ (fuel i : Nat), fuel = s.length - i → i ≤ s.length →
      rcewGo s i fuel false = some (collapseGo (prevWs s i) (s.drop i)) := by
  intro fuel
  induction fuel with
  | zero =>
    intro i hf hi
    have hieq : i = s.length := by omega
    subst hieq
    rw [List.drop_length]
    rfl
  | succ fuel ih =>
    intro i hf hi
    have hlt : i < s.length := by omega
    cases hgi : s.get? i with
    | none => exact absurd (List.get?_eq_none.1 hgi) (by omega)
    | some c =>
      have hca : charAt s i = some c := by rw [ascii_charAt s hA i]; exact hgi
      have hcc := commentCheck_no_slash s hA hs i c hgi
      have hcel : s[i] = c := by
        rw [List.get?_eq_getElem?, List.getElem?_eq_getElem hlt] at hgi
        exact Option.some.inj hgi
      have hdrop : s.drop i = c :: s.drop (i + 1) := by
        rw [List.drop_eq_getElem_cons hlt, hcel]
      have hih := ih (i + 1) (by omega) (by omega)
      have hpw1 : prevWs s (i + 1) = rustIsWhitespace c := by
        unfold prevWs
        rw [show i + 1 - 1 = i from rfl, hgi]
        simp
      unfold rcewGo
      rw [hca]
      dsimp only
      rw [hcc]
      dsimp only
      rw [if_neg (by simp)]
      unfold wsPushCheck
      by_cases hp : 0 < i ∧ rustIsWhitespace c = true
      · rw [if_pos hp]
        cases hgp : s.get? (i - 1) with
        | none => exact absurd (List.get?_eq_none.1 hgp) (by omega)
        | some p =>
          rw [ascii_charAt s hA (i - 1), hgp]
          dsimp only
          have hpw : prevWs s i = rustIsWhitespace p := by
            unfold prevWs
            rw [hgp]
            simp [hp.1]
          cases hwp : rustIsWhitespace p with
          | true =>
            simp only [Bool.not_true]
            rw [if_neg (by simp), hih, hdrop, hpw, hwp, collapseGo_cons, hpw1]
            simp [hp.2]
          | false =>
            simp only [Bool.not_false, if_true]
            rw [hih, Option.map_some', hdrop, hpw, hwp,
              collapseGo_cons, hpw1]
            simp
      · rw [if_neg hp]
        dsimp only
        rw [if_pos rfl]
        have hcond : (prevWs s i && rustIsWhitespace c) = false := by
          cases hwc : rustIsWhitespace c with
          | false => simp [hwc]
          | true =>
            have h0 : i = 0 := by
              by_contra hne
              exact hp ⟨Nat.pos_of_ne_zero hne, hwc⟩
            subst h0
            simp [prevWs]
        rw [hih, Option.map_some', hdrop, collapseGo_cons, hpw1, hcond]
        simp

theorem collapseGo_no_slash (s : List Char) :
    ∀ pw, ('/' : Char) ∉ s → ('/' : Char) ∉ collapseGo pw s := by
  induction s with
  | nil => intro pw _ h; cases h
  | cons c cs ih =>
    intro pw hs
    rw [List.mem_cons, not_or] at hs
    have hc := hs.1
    have hcs := hs.2
    unfold collapseGo
    by_cases hcond : (pw && rustIsWhitespace c) = true
    · rw [if_pos hcond]
      exact ih (rustIsWhitespace c) hcs
    · rw [if_neg hcond]
      intro h
      rcases List.mem_cons.1 h with he | hm
      · cases hws : rustIsWhitespace c with
        | true =>
          rw [hws, if_pos rfl] at he
          exact absurd he (by decide)
        | false =>
          rw [hws, if_neg (by simp)] at he
          exact hc he
      · exact ih (rustIsWhitespace c) hcs hm

theorem collapseGo_ascii (s : List Char) :
    ∀ pw, (∀ c ∈ s, c.toNat < 128) →
      ∀ x ∈ collapseGo pw s, x.toNat < 128 := by
  induction s with
  | nil => intro pw _ x hx; cases hx
  | cons c cs ih =>
    intro pw hs x hx
    have hcs : ∀ y ∈ cs, y.toNat < 128 :=
      fun y hy => hs y (List.mem_cons_of_mem c hy)
    unfold collapseGo at hx
    by_cases hcond : (pw && rustIsWhitespace c) = true
    · rw [if_pos hcond] at hx
      exact ih (rustIsWhitespace c) hcs x hx
    · rw [if_neg hcond] at hx
      rcases List.mem_cons.1 hx with he | hm
      · cases hws : rustIsWhitespace c with
        | true =>
          rw [hws, if_pos rfl] at he
          rw [he]; decide
        | false =>
          rw [hws, if_neg (by simp)] at he
          rw [he]
          exact hs c (List.mem_cons_self c cs)
      · exact ih (rustIsWhitespace c) hcs x hm

theorem normedFrom_mono (pw : Bool) (l : List Char)
    (h : normedFrom true l = true) : normedFrom pw l = true := by
  cases l with
  | nil => rfl
  | cons c cs =>
    unfold normedFrom at h ⊢
    cases hws : rustIsWhitespace c with
    | true => rw [hws] at h; simp at h
    | false => rw [hws] at h; simpa using h

theorem normedFrom_fixed (l : List Char) :
    ∀ pw, normedFrom pw l = true → collapseGo pw l = l := by
  induction l with
  | nil => intro pw _; rfl
  | cons c cs ih =>
    intro pw h
    unfold normedFrom at h
    simp only [Bool.and_eq_true] at h
    obtain ⟨⟨h1, h2⟩, h3⟩ := h
    have hkey : (pw && rustIsWhitespace c) = false := by
      cases hb : (pw && rustIsWhitespace c)
      · rfl
      · rw [hb] at h1; cases h1
    unfold collapseGo
    rw [hkey]
    simp only [if_neg (by simp : ¬(false = true))]
    rw [ih (rustIsWhitespace c) h3]
    by_cases hws : rustIsWhitespace c = true
    · rw [hws] at h2
      simp only [Bool.not_true, Bool.false_or] at h2
      rw [if_pos hws, of_decide_eq_true h2]
    · rw [if_neg hws]

theorem normedFrom_collapseGo (s : List Char) :
    ∀ pw, normedFrom pw (collapseGo pw s) = true := by
  induction s with
  | nil => intro pw; rfl
  | cons c cs ih =>
    intro pw
    unfold collapseGo
    by_cases hcond : (pw && rustIsWhitespace c) = true
    · rw [if_pos hcond]
      have hws : rustIsWhitespace c = true := by
        have h2 := hcond
        simp only [Bool.and_eq_true] at h2
        exact h2.2
      rw [hws]
      refine normedFrom_mono pw (collapseGo true cs) ?_
      have h3 := ih (rustIsWhitespace c)
      rwa [hws] at h3
    · rw [if_neg hcond]
      have hcond2 : (pw && rustIsWhitespace c) = false := by
        cases hb : (pw && rustIsWhitespace c)
        · rfl
        · exact absurd hb hcond
      have hwspush :
          rustIsWhitespace (if rustIsWhitespace c = true then ' ' else c) =
            rustIsWhitespace c := by
        by_cases hws : rustIsWhitespace c = true
        · rw [if_pos hws, hws]; decide
        · rw [if_neg hws]
      unfold normedFrom
      simp only [Bool.and_eq_true]
      refine ⟨⟨?_, ?_⟩, ?_⟩
      · rw [hwspush, hcond2]
        rfl
      · by_cases hws : rustIsWhitespace c = true
        · rw [if_pos hws]
          decide
        · rw [if_neg hws]
          have hf : rustIsWhitespace c = false := by
            cases hb : rustIsWhitespace c
            · rfl
            · exact absurd hb hws
          rw [hf]
          simp
      · rw [hwspush]
        exact ih (rustIsWhitespace c)

theorem rcew_some_ascii (s r : List Char)
    (h : removeCommentsAndExtraWhitespace s = some r) :
    ∀ c ∈ s, c.toNat < 128 := by
  refine allCharAt_ascii s (fun j hj => ?_)
  exact rcewGo_success_charAt s (byteLen s) 0 false r h j (Nat.zero_le j)
    (by omega)

theorem rcew_eq_collapse (s : List Char)
    (hA : ∀ c ∈ s, c.toNat < 128) (hs : ('/' : Char) ∉ s) :
    removeCommentsAndExtraWhitespace s = some (collapseGo false s) := by
  unfold removeCommentsAndExtraWhitespace
  rw [ascii_byteLen s hA]
  have h := rcewGo_eq_collapseGo s hA hs s.length 0 (by omega) (Nat.zero_le _)
  simpa [prevWs] using h

/-- C5, counterexample: normalization is not idempotent.  On `"//**/*"` the
scan emits the leading `'/'`, treats the rest as a comment whose terminator
is the final `"*/"`, and then emits the trailing `'*'`, producing `"/*"`;
normalizing that output again strips it entirely as a fresh comment opener,
yielding `""` instead.  (Composition is in the Kleisli sense, since the
byte-indexed scan can panic.) -/
theorem c5_normalize_not_idempotent :
    (removeCommentsAndExtraWhitespace (str "//**/*")).bind
        removeCommentsAndExtraWhitespace ≠
      removeCommentsAndExtraWhitespace (str "//**/*") := by
  decide

/-- C5, amended: normalization is idempotent on every input containing no
`'/'` character (where no comment handling can fire); it is not idempotent
in general, because comment stripping can splice the remaining characters
into a fresh `"/*"` opener (see the counterexample). -/
theorem c5_amended_idempotent_without_slash (s : List Char)
    (hs : ('/' : Char) ∉ s) :
    (removeCommentsAndExtraWhitespace s).bind
        removeCommentsAndExtraWhitespace =
      removeCommentsAndExtraWhitespace s := by
  cases h : removeCommentsAndExtraWhitespace s with
  | none => rfl
  | some t =>
    have hA := rcew_some_ascii s t h
    have ht : t = collapseGo false s := by
      have h2 := rcew_eq_collapse s hA hs
      rw [h] at h2
      exact Option.some.inj h2
    have hAt : ∀ c ∈ t, c.toNat < 128 := by
      rw [ht]; exact collapseGo_ascii s false hA
    have hst : ('/' : Char) ∉ t := by
      rw [ht]; exact collapseGo_no_slash s false hs
    have hfix : collapseGo false t = t := by
      nth_rewrite 2 [ht]
      rw [ht]
      exact normedFrom_fixed (collapseGo false s) false
        (normedFrom_collapseGo s false)
    rw [Option.some_bind, rcew_eq_collapse t hAt hst, hfix]

/-- Witness for C5's amended theorem at a slash-free input with a
whitespace run. -/
theorem c5_amended_idempotent_without_slash_witness :
    (removeCommentsAndExtraWhitespace (str "a  b")).bind
        removeCommentsAndExtraWhitespace =
      removeCommentsAndExtraWhitespace (str "a  b") :=
  c5_amended_idempotent_without_slash (str "a  b") (by decide)

/-- C6: inline parsing of `"position: absolute; color: red;"` yields a
Declaration whose position is `Absolute`, whose color is the parsed red, and
whose every other field keeps its default value. -/
theorem c6_inline_position_color :
    CssParser.parseInline (str "position: absolute; color: red;") =
      some {Declaration.mkDefault with
              position := .Absolute, color := some ⟨1, 0, 0, 1⟩} := by
  decide

/-- C7: an unrecognized property name is a no-op on the in-progress
Declaration for every value string and every parser state, and consequently
inline parsing of `"flibber: 3; color: blue;"` yields exactly the same
Declaration as parsing `"color: blue;"`. -/
theorem c7_unknown_property_is_noop :
    (∀ (v : List Char) (p : CssParser),
        CssParser.parseAttrValue {p with attrName := some (str "flibber")} v =
          some {p with attrName := some (str "flibber")}) ∧
    CssParser.parseInline (str "flibber: 3; color: blue;") =
      CssParser.parseInline (str "color: blue;") := by
  exact ⟨fun v p => rfl, by decide⟩

/-- C8, counterexample: the claim says every input whose numeric part fails
to parse yields magnitude `0.0` with an `Absolute` unit.  On `"em"` the
numeric scan collects no characters and the number parse fails, yet the unit
suffix (the whole string) parses to `RelativeToParentFontSize`, not
`Absolute`. -/
theorem c8_em_fails_number_but_unit_not_absolute :
    f32Parse? ((str "em").filter (fun c => rustIsNumeric c || c = '.')) =
        none ∧
    Dimension.fromStr (str "em") =
        some ⟨0, .RelativeToParentFontSize 0⟩ ∧
    (Dimension.fromStr (str "em")).map (fun d => d.unit.isAbsolute) =
        some false := by
  refine ⟨by decide, by decide, by decide⟩

theorem arenaGood_append (a : List (DOMNode × Option Nat)) (e : DOMNode × Option Nat)
    (ha : arenaGood a) (he : e.1.name ≠ str "html") : arenaGood (a ++ [e]) := by
  match a with
  | [] => exact ha.elim
  | hd :: tl =>
    refine ⟨ha.1, fun x hx => ?_⟩
    rcases List.mem_append.1 hx with h | h
    · exact ha.2 x h
    · rw [List.mem_singleton.1 h]; exact he

theorem arenaGood_set_root (a : List (DOMNode × Option Nat)) (e : DOMNode × Option Nat)
    (ha : arenaGood a) (he : e.1.name = str "html") : arenaGood (a.set 0 e) := by
  match a with
  | [] => exact ha.elim
  | hd :: tl => exact ⟨he, ha.2⟩

theorem addNode_preserves (l : Layout) (node : DOMNode) (parent : Nat)
    (ha : arenaGood l.arena) : arenaGood ((l.addNode node parent).2).arena := by
  unfold Layout.addNode
  by_cases h : node.name = str "html"
  · simpa [h] using arenaGood_set_root l.arena (node, none) ha h
  · simpa [h] using arenaGood_append l.arena (node, some parent) ha h

theorem foldlM_name_preserved
    (f : DOMNode → (List Char × List Char) → Option DOMNode)
    (hf : ∀ n kv n', f n kv = some n' → n'.name = n.name) :
    ∀ (l : List (List Char × List Char)) (acc node : DOMNode),
      l.foldlM f acc = some node → node.name = acc.name := by
  intro l
  induction l with
  | nil => intro acc node h; cases h; rfl
  | cons kv rest ih =>
    intro acc node h
    simp only [List.foldlM_cons, Option.bind_eq_bind] at h
    rcases Option.bind_eq_some.1 h with ⟨b, hb, hrest⟩
    rw [ih b node hrest, hf acc kv b hb]

theorem handleElementNode_name (name : List Char)
    (attrs : List (List Char × List Char)) (node : DOMNode)
    (h : handleElementNode name attrs = some node) : node.name = name := by
  refine foldlM_name_preserved _ ?_ attrs (DOMNode.new name) node h
  intro n kv n' hstep
  dsimp only at hstep
  by_cases hs : kv.1 = str "style"
  · rw [if_pos hs] at hstep
    rcases Option.map_eq_some'.1 hstep with ⟨d, _, rfl⟩
    rfl
  · rw [if_neg hs] at hstep
    cases hstep
    rfl

theorem runChildren_preserves
    (f : HtmlNode → Nat → Layout → Option Layout)
    (hf : ∀ n p l l', arenaGood l.arena → f n p l = some l' → arenaGood l'.arena) :
    ∀ (cs : List HtmlNode) (p : Nat) (l l' : Layout),
      arenaGood l.arena → runChildren f cs p l = some l' → arenaGood l'.arena := by
  intro cs
  induction cs with
  | nil => intro p l l' ha h; cases h; exact ha
  | cons c rest ih =>
    intro p l l' ha h
    simp only [runChildren, Option.bind_eq_bind] at h
    rcases Option.bind_eq_some.1 h with ⟨m, hm, hrest⟩
    exact ih p m l' (hf c p l m ha hm) hrest

theorem computeNodeFuel_preserves :
    ∀ (fuel : Nat) (n : HtmlNode) (p : Nat) (l l' : Layout),
      arenaGood l.arena → computeNodeFuel fuel n p l = some l' →
      arenaGood l'.arena := by
  intro fuel
  induction fuel with
  | zero => intro n p l l' _ h; cases h
  | succ fuel ih =>
    intro n p l l' ha h
    match n with
    | .element name attrs children =>
      simp only [computeNodeFuel, Option.bind_eq_bind] at h
      rcases Option.bind_eq_some.1 h with ⟨node, hnode, hrest⟩
      exact runChildren_preserves _ ih children _ _ l'
        (addNode_preserves l node p ha) hrest
    | .text t =>
      simp only [computeNodeFuel, Option.map_eq_map] at h
      rcases Option.map_eq_some'.1 h with ⟨node, hnode, rfl⟩
      refine arenaGood_append l.arena (node, some p) ha ?_
      rcases Option.map_eq_some'.1 hnode with ⟨txt, _, rfl⟩
      intro hcontra
      cases hcontra
    | .other children =>
      simp only [computeNodeFuel] at h
      exact runChildren_preserves _ ih children p l l' ha h

theorem arenaGood_countHtml (l : Layout) (h : arenaGood l.arena) :
    l.countHtml = 1 := by
  unfold Layout.countHtml
  match hl : l.arena with
  | [] => rw [hl] at h; exact h.elim
  | hd :: tl =>
    rw [hl] at h
    have h2 : tl.filter (fun e => e.1.name = str "html") = [] :=
      List.filter_eq_nil_iff.2 (fun e he => by simpa using h.2 e he)
    simp [List.filter_cons, h.1, h2]

/-- C9: building a layout tree from a parsed document whose root element is
the single element named `"html"` always produces an arena with exactly one
node named `"html"`: the `html` element overwrites the pre-existing root
node in place instead of being appended as a child.  (In fact the proof
shows the invariant holds for every document: `add_node` sends every
`html`-named node to the root slot.) -/
theorem c9_root_merge_single_html (fuel : Nat) (doc : HtmlNode)
    (style : GlobalStyle) (l : Layout) (_hdoc : SingleHtmlRoot doc)
    (h : Layout.compute fuel doc style = some l) : l.countHtml = 1 := by
  refine arenaGood_countHtml l (computeNodeFuel_preserves fuel doc 0 _ l ?_ h)
  exact ⟨rfl, fun e he => by cases he⟩

/-- Witness for C9 at `sampleDoc`: its hypotheses are satisfiable and the
conclusion holds on the computed layout. -/
theorem c9_root_merge_single_html_witness :
    SingleHtmlRoot sampleDoc ∧
    (Layout.compute 3 sampleDoc ⟨[]⟩).map Layout.countHtml = some 1 := by
  have hs : SingleHtmlRoot sampleDoc := by
    refine SingleHtmlRoot.mk [] [.text (str "hi")] [] []
      (fun c hc => by cases hc) (fun c hc => by cases hc) (fun c hc => ?_)
    rw [List.mem_singleton.1 hc]
    exact .text _
  refine ⟨hs, ?_⟩
  cases h : Layout.compute 3 sampleDoc ⟨[]⟩ with
  | none => exact absurd h (by decide)
  | some l =>
    rw [Option.map_some']
    exact congrArg some (c9_root_merge_single_html 3 sampleDoc ⟨[]⟩ l hs h)

theorem byteDrop_zero (s : List Char) : byteDrop s 0 = some s := by
  cases s <;> rfl

theorem unitFromStrNorm_zero (t : List Char) :
    Unit.fromStrNorm t 0 = .Absolute 0 ∨
      Unit.fromStrNorm t 0 = .RelativeToParentFontSize 0 ∨
      Unit.fromStrNorm t 0 = .RelativeToParentFontHeight 0 := by
  unfold Unit.fromStrNorm
  split_ifs <;> simp

theorem unitFromStr_zero (t : List Char) :
    Unit.fromStr t 0 = .Absolute 0 ∨
      Unit.fromStr t 0 = .RelativeToParentFontSize 0 ∨
      Unit.fromStr t 0 = .RelativeToParentFontHeight 0 :=
  unitFromStrNorm_zero _

/-- C8, amended: for every input string whose numeric part fails to parse,
`Dimension::from_str` yields magnitude `0.0` and a unit whose numeric
payload is also `0.0`; the unit is parsed from the whole string (the suffix
after zero consumed bytes) with number `0.0`, so it is `Absolute 0` unless
the normalized unit suffix is `em` (`RelativeToParentFontSize 0`) or `ex`
(`RelativeToParentFontHeight 0`). -/
theorem c8_amended_failed_number_gives_zero (s : List Char)
    (hfail : f32Parse? (s.filter (fun c => rustIsNumeric c || c = '.')) = none) :
    Dimension.fromStr s = some ⟨0, Unit.fromStr s 0⟩ ∧
      (Unit.fromStr s 0).payload = 0 ∧
      (Unit.fromStr s 0 = .Absolute 0 ∨
        Unit.fromStr s 0 = .RelativeToParentFontSize 0 ∨
        Unit.fromStr s 0 = .RelativeToParentFontHeight 0) := by
  refine ⟨?_, ?_, unitFromStr_zero s⟩
  · simp only [Dimension.fromStr, parseNumber, hfail, byteDrop_zero,
      Option.map_some']
  · rcases unitFromStr_zero s with h | h | h <;> rw [h] <;> rfl

/-- Witness for C8's amended theorem at the digit-free input `"abc"`. -/
theorem c8_amended_failed_number_gives_zero_witness :
    Dimension.fromStr (str "abc") = some ⟨0, Unit.fromStr (str "abc") 0⟩ ∧
      (Unit.fromStr (str "abc") 0).payload = 0 ∧
      (Unit.fromStr (str "abc") 0 = .Absolute 0 ∨
        Unit.fromStr (str "abc") 0 = .RelativeToParentFontSize 0 ∨
        Unit.fromStr (str "abc") 0 = .RelativeToParentFontHeight 0) :=
  c8_amended_failed_number_gives_zero (str "abc") (by decide)

/-- C10: in stylesheet mode every `advance` step that starts at brace depth
0 on a name character consumes the maximal name token and overwrites the
pending selector with it (recording depth 0 as the rule-open marker), so a
committed rule's selector is only the last name consumed before the opening
brace; in particular `"p div { color: red; }"` parses to exactly one rule,
with selector `"div"` (not `"p div"`), carrying the declaration. -/
theorem c10_last_name_wins_as_selector :
    (∀ (p : CssParser) (c : Char), p.braceLevel = 0 →
        p.input.get? p.pos = some c → isNameChar c →
        CssParser.advance p =
          some {p with
                  pos := p.pos + ((p.input.drop p.pos).takeWhile isNameChar).length,
                  selector := some ((p.input.drop p.pos).takeWhile isNameChar),
                  declBraceLevel := some 0}) ∧
    GlobalStyle.fromCss (str "p div { color: red; }") .Normal =
      some ⟨[(str "div",
              {Declaration.mkDefault with color := some ⟨1, 0, 0, 1⟩})]⟩ := by
  constructor
  · intro p c hb hc hname
    have h1 : ¬(c = '{') := fun e => absurd (e ▸ hname) (by decide)
    have h2 : ¬(c = '}') := fun e => absurd (e ▸ hname) (by decide)
    have h3 : ¬(c = ' ') := fun e => absurd (e ▸ hname) (by decide)
    have hlt : p.pos < p.input.length := by
      by_contra hge
      rw [List.get?_eq_none.2 (le_of_not_lt hge)] at hc
      cases hc
    have hcel : p.input[p.pos] = c := by
      rw [List.get?_eq_getElem?, List.getElem?_eq_getElem hlt] at hc
      exact Option.some.inj hc
    have hdrop : p.input.drop p.pos = c :: p.input.drop (p.pos + 1) := by
      rw [List.drop_eq_getElem_cons hlt, hcel]
    have hne : (p.input.drop p.pos).takeWhile isNameChar ≠ [] := by
      rw [hdrop, List.takeWhile_cons, if_pos hname]
      exact List.cons_ne_nil _ _
    simp only [CssParser.advance, hc, consumeWhile, if_neg h1, if_neg h2,
      if_neg h3, hb, if_pos rfl, if_neg hne, if_true]
  · decide

/-- Witness for C10's general conjunct at the concrete state `pW`. -/
theorem c10_last_name_wins_as_selector_witness :
    CssParser.advance pW =
      some {pW with pos := 1, selector := some (str "p"),
                    declBraceLevel := some 0} := by
  have h := c10_last_name_wins_as_selector.1 pW 'p' rfl rfl (by decide)
  exact h.trans (by rfl)

end Dragonfly
